import Mathlib

/-!
# Epoch/shard bookkeeping of the DALI base iterator

A shallow embedding of `dali/python/nvidia/dali/plugin/base_iterator.py`
(class `_DaliBaseIterator`) together with proofs about its behaviour.

The Python object is modelled by the record `SchedState`; every mutable
attribute of the class becomes a field.  Python integers are `Int`
(Python `//` and `%` with a positive divisor agree with `Int`'s `/` and
`%`, and `math.ceil(a / b)` for integers with `b > 0` is `cdiv a b`),
numpy arrays are `List Int`, and methods are pure functions from state
to state.  Construction (`__init__` plus
`_extract_from_reader_and_validate`) returns `Except InitError
SchedState`, with the `assert` statements mapped to the error taxonomy
(`configMismatch` for cross-worker disagreements, `invalidConfig` for
illegal parameter combinations).
-/

namespace DaliIterator

/-- Minimum of a list of integers (Python `min(...)` over a nonempty
numpy array); `0` on the empty list, which the modelled code never
produces. -/
def listMin : List Int → Int
  | [] => 0
  | x :: xs => xs.foldl min x

/-- Maximum of a list of integers (Python `max(...)` over a nonempty
numpy array); `0` on the empty list. -/
def listMax : List Int → Int
  | [] => 0
  | x :: xs => xs.foldl max x

/-- `np.roll(l, 1)`: move the last element to the front. -/
def roll (l : List Int) : List Int := l.reverse.take 1 ++ l.dropLast

/-- `math.ceil(a / b)` for integer `a` and positive integer `b`. -/
def cdiv (a b : Int) : Int := (a + b - 1) / b

/-- The record returned by the collaborator call `reader_meta(name)`. -/
structure ReaderMeta where
  epochSize : Int
  epochSizePadded : Int
  numberOfShards : Int
  shardId : Int
  padLastBatch : Bool
  stickToShard : Bool
deriving DecidableEq

/-- One worker pipeline, reduced to the data this core reads from it. -/
structure Pipe where
  batchSize : Int
  meta : ReaderMeta
deriving DecidableEq

/-- The mutable state of a `_DaliBaseIterator`.  Fields that Python only
creates in reader-driven mode (`_size_no_pad`, `_shards_num`,
`_is_stick_to_shard`, `_shards_id`, `_counter_per_gpu`,
`_shard_sizes_per_gpu`, `_shard_sizes_per_gpu_initial`) hold harmless
defaults otherwise. -/
structure SchedState where
  numGpus : Nat
  batchSize : Int
  size : Int
  autoReset : Bool
  fillLastBatch : Bool
  lastBatchPadded : Bool
  counter : Int
  readerName : Bool
  sizeNoPad : Int
  shardsNum : Int
  isStickToShard : Bool
  shardsId : List Int
  counterPerGpu : List Int
  shardSizesPerGpu : List Int
  shardSizesInitial : List Int
deriving DecidableEq

/-- Construction-time failures.  `configMismatch` models the `assert`s
that compare values across workers, `invalidConfig` the remaining
parameter `assert`s. -/
inductive InitError where
  | configMismatch
  | invalidConfig
deriving DecidableEq

/-- `_calculate_shard_sizes(np.arange(0, shards_num))`:
`floor((id+1)*size_no_pad/shards_num) - floor(id*size_no_pad/shards_num)`
for each shard id. -/
def calculateShardSizes (sizeNoPad shardsNum : Int) : List Int :=
  (List.range shardsNum.toNat).map
    (fun (id : ℕ) => ((id : Int) + 1) * sizeNoPad / shardsNum - (id : Int) * sizeNoPad / shardsNum)

/-- `_extract_from_reader_and_validate`: interrogate every worker's
`reader_meta`, validate uniformity, derive the sizing state. -/
def extractFromReaderAndValidate (base : SchedState) (metas : List ReaderMeta) :
    Except InitError SchedState :=
  if base.readerName = true then
    match metas with
    | [] => .error .invalidConfig
    | m0 :: _ =>
      if ¬ (∀ m ∈ metas, m.epochSize = m0.epochSize) then .error .configMismatch
      else if ¬ (∀ m ∈ metas, m.numberOfShards = m0.numberOfShards) then .error .configMismatch
      else if ¬ ((∀ m ∈ metas, m.padLastBatch = true) ∨ (∀ m ∈ metas, m.padLastBatch = false)) then
        .error .configMismatch
      else if ¬ ((∀ m ∈ metas, m.stickToShard = true) ∨ (∀ m ∈ metas, m.stickToShard = false)) then
        .error .configMismatch
      else
        let sizeNoPad := m0.epochSize
        let shardsNum := m0.numberOfShards
        let size :=
          if m0.padLastBatch then m0.epochSizePadded / shardsNum
          else cdiv (cdiv sizeNoPad shardsNum) base.batchSize * base.batchSize
        .ok { base with
          sizeNoPad := sizeNoPad
          shardsNum := shardsNum
          lastBatchPadded := m0.padLastBatch
          isStickToShard := m0.stickToShard
          shardsId := metas.map (fun m => m.shardId)
          size := size
          counterPerGpu := List.replicate shardsNum.toNat 0
          shardSizesPerGpu := calculateShardSizes sizeNoPad shardsNum
          shardSizesInitial := calculateShardSizes sizeNoPad shardsNum }
  else .ok base

/-- `__init__`: parameter validation, flag derivation for the unsized
mode, then reader interrogation. -/
def initScheduler (pipes : List Pipe) (size : Int)
    (readerName autoReset fillLastBatch lastBatchPadded : Bool) :
    Except InitError SchedState :=
  match pipes with
  | [] => .error .invalidConfig
  | p0 :: _ =>
    if ¬ (∀ p ∈ pipes, p.batchSize = p0.batchSize) then .error .configMismatch
    else if size = 0 then .error .invalidConfig
    else if ¬ (0 < size ∨ (size < 0 ∧ (pipes.length = 1 ∨ readerName = true))) then
      .error .invalidConfig
    else if readerName = true ∧ ¬ size < 0 then .error .invalidConfig
    else if readerName = true ∧ lastBatchPadded = true then .error .invalidConfig
    else
      let base : SchedState := {
        numGpus := pipes.length
        batchSize := p0.batchSize
        size := size
        autoReset := if size < 0 ∧ readerName = false then false else autoReset
        fillLastBatch := if size < 0 ∧ readerName = false then false else fillLastBatch
        lastBatchPadded := if size < 0 ∧ readerName = false then false else lastBatchPadded
        counter := 0
        readerName := readerName
        sizeNoPad := 0
        shardsNum := 0
        isStickToShard := false
        shardsId := []
        counterPerGpu := []
        shardSizesPerGpu := []
        shardSizesInitial := [] }
      extractFromReaderAndValidate base (pipes.map (fun p => p.meta))

/-- The shard-id rotation applied to every worker by `reset`:
`(shard_id + 1) % shards_num`. -/
def advanceShardId (n i : Int) : Int := (i + 1) % n

/-- Lines 211–228 of `reset()`: the counter rebase performed once the
guard `counter >= size or size < 0` has passed. -/
def resetRebase (s : SchedState) : SchedState :=
  if s.fillLastBatch = true ∧ s.lastBatchPadded = false then
    if s.readerName = true then
      let counter1 := s.counter - listMin s.counterPerGpu
      let cpg1 := s.counterPerGpu.map (fun x => x + counter1)
      let cpg2 := List.zipWith (fun x y => x - y) cpg1 s.shardSizesPerGpu
      { s with counter := listMin cpg2, counterPerGpu := cpg2 }
    else
      { s with counter := s.counter % s.size }
  else
    { s with counter := 0 }

/-- Lines 229–256 of `reset()`: shard rotation and effective-size
recomputation (reader-driven only). -/
def resetAdvance (s : SchedState) : SchedState :=
  if s.readerName = true then
    let s1 :=
      if s.isStickToShard then s
      else { s with shardsId := s.shardsId.map (advanceShardId s.shardsNum) }
    if s1.fillLastBatch = true ∧ s1.lastBatchPadded = false then
      let s2 :=
        if s1.isStickToShard then s1
        else { s1 with shardSizesPerGpu := roll s1.shardSizesPerGpu }
      let readInNextEpoch := List.zipWith (fun x y => x - y) s2.shardSizesPerGpu s2.counterPerGpu
      let newSize := cdiv (listMax readInNextEpoch) s2.batchSize * s2.batchSize
      if newSize = 0 then
        { s2 with
          counterPerGpu := List.replicate s2.shardsNum.toNat 0
          counter := 0
          shardSizesPerGpu := roll s2.shardSizesPerGpu
          size := cdiv (listMax (roll s2.shardSizesPerGpu)) s2.batchSize * s2.batchSize }
      else { s2 with size := newSize }
    else s1
  else s

/-- `reset()`.  The second component records whether the per-worker
collaborator calls (`p.reset()` and the conditional `p.schedule_run()`)
were performed; when the guard fails the method only logs a warning and
leaves the state untouched. -/
def reset (s : SchedState) : SchedState × Bool :=
  if s.counter ≥ s.size ∨ s.size < 0 then (resetAdvance (resetRebase s), true)
  else (s, false)

/-- `_check_stop`: raises `StopIteration` (second component `true`) iff
`counter >= size and size > 0`, first triggering `reset()` when
`auto_reset` is set. -/
def checkStop (s : SchedState) : SchedState × Bool :=
  if s.counter ≥ s.size ∧ 0 < s.size then
    (if s.autoReset then (reset s).1 else s, true)
  else (s, false)

/-- `_remove_padded`.  The Python result is dynamically typed — the
scalars `False` and `-1` when `fill_last_batch` is set, per-worker numpy
arrays otherwise; `Sum.inl` models the scalars, `Sum.inr` the arrays. -/
def removePadded (s : SchedState) : (Bool ⊕ List Bool) × (Int ⊕ List Int) :=
  if s.fillLastBatch then (Sum.inl false, Sum.inl (-1))
  else
    let left := s.shardsId.map
      (fun sid => s.batchSize - (s.counter - s.shardSizesInitial.getD sid.toNat 0))
    (Sum.inr (left.map (fun x => decide (x < s.batchSize))), Sum.inr left)

/-- Modelled from the spec: the per-step counter increment lives in the
framework-specific derived iterators, not in `base_iterator.py`.  Per
spec §2, after a non-stopping `should_stop` check the caller draws one
batch per pipeline and "increments the counter by batch size". -/
def stepCounter (s : SchedState) : SchedState :=
  { s with counter := s.counter + s.batchSize }

/-- Modelled from the spec: the reader collaborator (implemented outside
`src/`, in DALI's reader operators) guarantees that when
`pad_last_batch` is set all shards are padded to the same length, a
whole number of batches (code comment "if padding is enabled all shards
are equal"; spec §3 requires `effective_size` to stay a non-negative
multiple of `batch_size`), so the per-shard padded size
`epoch_size_padded // number_of_shards` is a non-negative multiple of
the batch size. -/
def ReaderPadConsistent (batchSize : Int) (m : ReaderMeta) : Prop :=
  m.padLastBatch = true →
    0 ≤ m.epochSizePadded / m.numberOfShards ∧
      m.epochSizePadded / m.numberOfShards % batchSize = 0

/-- The states a `_DaliBaseIterator` can reach: the constructed state,
closed under the caller's counter step (only available while
`_check_stop` does not raise, since the increment in the derived
iterators runs after `_check_stop`) and under arbitrary `reset()`
calls. -/
inductive Reachable (pipes : List Pipe) (size : Int)
    (readerName autoReset fillLastBatch lastBatchPadded : Bool) : SchedState → Prop where
  | init : ∀ s,
      initScheduler pipes size readerName autoReset fillLastBatch lastBatchPadded = .ok s →
      Reachable pipes size readerName autoReset fillLastBatch lastBatchPadded s
  | step : ∀ s,
      Reachable pipes size readerName autoReset fillLastBatch lastBatchPadded s →
      ¬ (s.counter ≥ s.size ∧ 0 < s.size) →
      Reachable pipes size readerName autoReset fillLastBatch lastBatchPadded (stepCounter s)
  | reset : ∀ s,
      Reachable pipes size readerName autoReset fillLastBatch lastBatchPadded s →
      Reachable pipes size readerName autoReset fillLastBatch lastBatchPadded (reset s).1

/-! ## Toolkit: list minima and maxima -/

lemma le_foldl_max (xs : List Int) (a : Int) : a ≤ xs.foldl max a := by
  induction xs generalizing a with
  | nil => exact le_refl a
  | cons y ys ih =>
    calc a ≤ max a y := le_max_left a y
    _ ≤ (y :: ys).foldl max a := ih (max a y)

lemma foldl_max_le {xs : List Int} {a b : Int} (ha : a ≤ b) (h : ∀ x ∈ xs, x ≤ b) :
    xs.foldl max a ≤ b := by
  induction xs generalizing a with
  | nil => exact ha
  | cons y ys ih =>
    exact ih (max_le ha (h y (List.mem_cons_self y ys))) fun x hx => h x (List.mem_cons_of_mem y hx)

lemma le_foldl_max_of_mem {xs : List Int} {x : Int} (hx : x ∈ xs) (a : Int) :
    x ≤ xs.foldl max a := by
  induction xs generalizing a with
  | nil => cases hx
  | cons y ys ih =>
    rcases List.mem_cons.mp hx with h | h
    · subst h
      calc x ≤ max a x := le_max_right a x
      _ ≤ ys.foldl max (max a x) := le_foldl_max ys (max a x)
    · exact ih h (max a y)

lemma foldl_max_mem (xs : List Int) (a : Int) : xs.foldl max a ∈ a :: xs := by
  induction xs generalizing a with
  | nil => exact List.mem_singleton.mpr rfl
  | cons y ys ih =>
    have h := ih (max a y)
    rcases List.mem_cons.mp h with h1 | h1
    · show ys.foldl max (max a y) ∈ a :: y :: ys
      rw [h1]
      rcases max_choice a y with hc | hc
      · rw [hc]; exact List.mem_cons_self a (y :: ys)
      · rw [hc]; exact List.mem_cons_of_mem a (List.mem_cons_self y ys)
    · exact List.mem_cons_of_mem a (List.mem_cons_of_mem y h1)

lemma foldl_min_le (xs : List Int) (a : Int) : xs.foldl min a ≤ a := by
  induction xs generalizing a with
  | nil => exact le_refl a
  | cons y ys ih =>
    calc (y :: ys).foldl min a = ys.foldl min (min a y) := rfl
    _ ≤ min a y := ih (min a y)
    _ ≤ a := min_le_left a y

lemma le_foldl_min {xs : List Int} {a b : Int} (ha : b ≤ a) (h : ∀ x ∈ xs, b ≤ x) :
    b ≤ xs.foldl min a := by
  induction xs generalizing a with
  | nil => exact ha
  | cons y ys ih =>
    exact ih (le_min ha (h y (List.mem_cons_self y ys))) fun x hx => h x (List.mem_cons_of_mem y hx)

lemma foldl_min_le_of_mem {xs : List Int} {x : Int} (hx : x ∈ xs) (a : Int) :
    xs.foldl min a ≤ x := by
  induction xs generalizing a with
  | nil => cases hx
  | cons y ys ih =>
    rcases List.mem_cons.mp hx with h | h
    · subst h
      calc ys.foldl min (min a x) ≤ min a x := foldl_min_le ys (min a x)
      _ ≤ x := min_le_right a x
    · exact ih h (min a y)

lemma foldl_min_mem (xs : List Int) (a : Int) : xs.foldl min a ∈ a :: xs := by
  induction xs generalizing a with
  | nil => exact List.mem_singleton.mpr rfl
  | cons y ys ih =>
    have h := ih (min a y)
    rcases List.mem_cons.mp h with h1 | h1
    · show ys.foldl min (min a y) ∈ a :: y :: ys
      rw [h1]
      rcases min_choice a y with hc | hc
      · rw [hc]; exact List.mem_cons_self a (y :: ys)
      · rw [hc]; exact List.mem_cons_of_mem a (List.mem_cons_self y ys)
    · exact List.mem_cons_of_mem a (List.mem_cons_of_mem y h1)

lemma le_listMax {l : List Int} {x : Int} (hx : x ∈ l) : x ≤ listMax l := by
  cases l with
  | nil => cases hx
  | cons y ys =>
    rcases List.mem_cons.mp hx with h | h
    · exact h ▸ le_foldl_max ys y
    · exact le_foldl_max_of_mem h y

lemma listMax_le {l : List Int} {b : Int} (hne : l ≠ []) (h : ∀ x ∈ l, x ≤ b) :
    listMax l ≤ b := by
  cases l with
  | nil => exact absurd rfl hne
  | cons y ys =>
    show ys.foldl max y ≤ b
    exact foldl_max_le (h y (List.mem_cons_self y ys)) (fun x hx => h x (List.mem_cons_of_mem y hx))

lemma listMax_mem {l : List Int} (hne : l ≠ []) : listMax l ∈ l := by
  cases l with
  | nil => exact absurd rfl hne
  | cons y ys => exact foldl_max_mem ys y

lemma listMin_le {l : List Int} {x : Int} (hx : x ∈ l) : listMin l ≤ x := by
  cases l with
  | nil => cases hx
  | cons y ys =>
    rcases List.mem_cons.mp hx with h | h
    · exact h ▸ foldl_min_le ys y
    · exact foldl_min_le_of_mem h y

lemma le_listMin {l : List Int} {b : Int} (hne : l ≠ []) (h : ∀ x ∈ l, b ≤ x) :
    b ≤ listMin l := by
  cases l with
  | nil => exact absurd rfl hne
  | cons y ys =>
    show b ≤ ys.foldl min y
    exact le_foldl_min (h y (List.mem_cons_self y ys)) (fun x hx => h x (List.mem_cons_of_mem y hx))

lemma listMin_mem {l : List Int} (hne : l ≠ []) : listMin l ∈ l := by
  cases l with
  | nil => exact absurd rfl hne
  | cons y ys => exact foldl_min_mem ys y

lemma listMax_eq_of_perm {l l' : List Int} (h : l.Perm l') : listMax l = listMax l' := by
  rcases eq_or_ne l [] with hl | hl
  · subst hl
    rw [← h.nil_eq]
  · have hne' : l' ≠ [] := by
      intro hl'
      exact hl (List.Perm.eq_nil (hl' ▸ h))
    apply le_antisymm
    · exact le_listMax (h.mem_iff.mp (listMax_mem hl))
    · exact le_listMax (h.mem_iff.mpr (listMax_mem hne'))

lemma listMin_eq_of_perm {l l' : List Int} (h : l.Perm l') : listMin l = listMin l' := by
  rcases eq_or_ne l [] with hl | hl
  · subst hl
    rw [← h.nil_eq]
  · have hne' : l' ≠ [] := by
      intro hl'
      exact hl (List.Perm.eq_nil (hl' ▸ h))
    apply le_antisymm
    · exact listMin_le (h.mem_iff.mpr (listMin_mem hne'))
    · exact listMin_le (h.mem_iff.mp (listMin_mem hl))

/-! ## Toolkit: `roll` -/

lemma roll_nil : roll [] = [] := rfl

lemma roll_concat (xs : List Int) (a : Int) : roll (xs ++ [a]) = a :: xs := by
  simp [roll, List.dropLast_concat]

lemma roll_perm (l : List Int) : (roll l).Perm l := by
  induction l using List.reverseRecOn with
  | nil => simp [roll]
  | append_singleton xs a _ =>
    rw [roll_concat]
    exact (List.perm_append_singleton a xs).symm

lemma roll_length (l : List Int) : (roll l).length = l.length :=
  (roll_perm l).length_eq

lemma mem_roll {l : List Int} {x : Int} : x ∈ roll l ↔ x ∈ l :=
  (roll_perm l).mem_iff

lemma listMax_roll (l : List Int) : listMax (roll l) = listMax l :=
  listMax_eq_of_perm (roll_perm l)

/-! ## Toolkit: `zipWith` arithmetic -/

lemma zipWith_sub_map_add (A : Int) (l1 l2 : List Int) :
    List.zipWith (fun x y => x - y) (l1.map (fun x => x + A)) l2
      = (List.zipWith (fun x y => x - y) l2 l1).map (fun d => A - d) := by
  induction l1 generalizing l2 with
  | nil => simp
  | cons x xs ih =>
    cases l2 with
    | nil => simp
    | cons y ys => simpa [List.zipWith] using ⟨by ring, ih ys⟩

lemma zipWith_sub_replicate_zero (l : List Int) (n : Nat) (hn : l.length = n) :
    List.zipWith (fun x y => x - y) l (List.replicate n 0) = l := by
  induction l generalizing n with
  | nil => simp
  | cons x xs ih =>
    cases n with
    | zero => simp at hn
    | succ m => simpa [List.replicate] using ih m (by simpa using hn)

lemma listMin_map_sub (A : Int) (l : List Int) (hne : l ≠ []) :
    listMin (l.map (fun d => A - d)) = A - listMax l := by
  have key : ∀ (xs : List Int) (a : Int),
      (xs.map (fun d => A - d)).foldl min (A - a) = A - xs.foldl max a := by
    intro xs
    induction xs with
    | nil => intro a; rfl
    | cons y ys ih =>
      intro a
      have h1 : min (A - a) (A - y) = A - max a y := min_sub_sub_left A a y
      calc ((y :: ys).map (fun d => A - d)).foldl min (A - a)
          = (ys.map (fun d => A - d)).foldl min (min (A - a) (A - y)) := rfl
      _ = (ys.map (fun d => A - d)).foldl min (A - max a y) := by rw [h1]
      _ = A - ys.foldl max (max a y) := ih (max a y)
  cases l with
  | nil => exact absurd rfl hne
  | cons x xs => exact key xs x

/-! ## Toolkit: ceiling division -/

lemma le_cdiv_mul (a : Int) {b : Int} (hb : 0 < b) : a ≤ cdiv a b * b := by
  have hmod1 : a + b - 1 = b * ((a + b - 1) / b) + (a + b - 1) % b := (Int.ediv_add_emod _ b).symm
  have hmod2 : (a + b - 1) % b < b := Int.emod_lt_of_pos _ hb
  unfold cdiv
  nlinarith [Int.emod_nonneg (a + b - 1) hb.ne']

lemma cdiv_mul_lt (a : Int) {b : Int} (hb : 0 < b) : cdiv a b * b < a + b := by
  have hmod1 : a + b - 1 = b * ((a + b - 1) / b) + (a + b - 1) % b := (Int.ediv_add_emod _ b).symm
  have hmod2 : 0 ≤ (a + b - 1) % b := Int.emod_nonneg _ hb.ne'
  unfold cdiv
  nlinarith

lemma cdiv_nonneg {a b : Int} (hb : 0 < b) (ha : 0 ≤ a) : 0 ≤ cdiv a b :=
  Int.ediv_nonneg (by omega) hb.le

lemma cdiv_eq_zero {a b : Int} (hb : 0 < b) (h1 : -b < a) (h2 : a ≤ 0) : cdiv a b = 0 :=
  Int.ediv_eq_zero_of_lt (by omega) (by omega)

lemma cdiv_pos {a b : Int} (hb : 0 < b) (ha : 0 < a) : 0 < cdiv a b := by
  have : (1 : Int) ≤ (a + b - 1) / b := (Int.le_ediv_iff_mul_le hb).mpr (by omega)
  unfold cdiv
  omega

lemma cdiv_mul_emod (a b : Int) : cdiv a b * b % b = 0 := Int.mul_emod_left _ b

lemma cdiv_le_of_le_mul {a b c : Int} (hb : 0 < b) (h : a ≤ c * b) : cdiv a b ≤ c := by
  have h1 : cdiv a b ≤ (c * b + b - 1) / b := Int.ediv_le_ediv hb (by omega)
  have h2 : (c * b + b - 1) / b = (b - 1 + b * c) / b := by ring_nf
  have h3 : (b - 1 + b * c) / b = (b - 1) / b + c := Int.add_mul_ediv_left _ c hb.ne'
  have h4 : (b - 1) / b = 0 := Int.ediv_eq_zero_of_lt (by omega) (by omega)
  omega

lemma ediv_add_ediv_le (a c : Int) {n : Int} (hn : 0 < n) : a / n + c / n ≤ (a + c) / n := by
  rw [Int.le_ediv_iff_mul_le hn]
  have h1 : n * (a / n) + a % n = a := Int.ediv_add_emod a n
  have h2 : n * (c / n) + c % n = c := Int.ediv_add_emod c n
  have h3 : 0 ≤ a % n := Int.emod_nonneg a hn.ne'
  have h4 : 0 ≤ c % n := Int.emod_nonneg c hn.ne'
  nlinarith

lemma ediv_add_le (a : Int) {s n : Int} (hn : 0 < n) :
    (a + s) / n ≤ a / n + cdiv s n := by
  have h1 : a + s ≤ a + cdiv s n * n := by
    have := le_cdiv_mul s hn
    omega
  calc (a + s) / n ≤ (a + cdiv s n * n) / n := Int.ediv_le_ediv hn h1
  _ = a / n + cdiv s n := Int.add_mul_ediv_right a (cdiv s n) hn.ne'

lemma cdiv_le_ediv_add_one (s : Int) {n : Int} (hn : 0 < n) : cdiv s n ≤ s / n + 1 := by
  by_contra hcon
  push_neg at hcon
  have h1 : cdiv s n * n < s + n := cdiv_mul_lt s hn
  have h2 : n * (s / n) + s % n = s := Int.ediv_add_emod s n
  have h3 : s % n < n := Int.emod_lt_of_pos s hn
  have h4 : (s / n + 2) * n ≤ cdiv s n * n := mul_le_mul_of_nonneg_right (by omega) hn.le
  nlinarith

/-! ## Toolkit: the balanced shard partition -/

lemma sum_range_map_sub (g : ℕ → Int) (k : ℕ) :
    ((List.range k).map (fun i => g (i + 1) - g i)).sum = g k - g 0 := by
  induction k with
  | zero => simp
  | succ m ih =>
    rw [List.range_succ, List.map_append, List.sum_append, ih]
    simp only [List.map_cons, List.map_nil, List.sum_cons, List.sum_nil]
    ring

lemma calculateShardSizes_length (s n : Int) :
    (calculateShardSizes s n).length = n.toNat := by
  simp [calculateShardSizes]

lemma calculateShardSizes_ne_nil {s n : Int} (hn : 0 < n) :
    calculateShardSizes s n ≠ [] := by
  have h := calculateShardSizes_length s n
  intro hcon
  rw [hcon] at h
  simp at h
  omega

lemma calculateShardSizes_sum {s n : Int} (hn : 0 < n) :
    (calculateShardSizes s n).sum = s := by
  have h := sum_range_map_sub (fun i => ((i : ℕ) : Int) * s / n) n.toNat
  simp only [] at h
  have hcongr : calculateShardSizes s n
      = (List.range n.toNat).map (fun i => ((i + 1 : ℕ) : Int) * s / n - ((i : ℕ) : Int) * s / n) := by
    unfold calculateShardSizes
    apply List.map_congr_left
    intro i _
    push_cast
    rfl
  rw [hcongr, h]
  have htn : ((n.toNat : ℕ) : Int) = n := Int.toNat_of_nonneg hn.le
  rw [htn]
  have h0 : ((0 : ℕ) : Int) * s / n = 0 := by norm_num
  rw [h0, Int.mul_ediv_cancel_left s hn.ne']
  ring

lemma calculateShardSizes_mem_lb {s n x : Int} (hn : 0 < n)
    (hx : x ∈ calculateShardSizes s n) : s / n ≤ x := by
  rcases List.mem_map.mp hx with ⟨id, _, hid⟩
  have h1 : (id : Int) * s / n + s / n ≤ ((id : Int) * s + s) / n := ediv_add_ediv_le _ _ hn
  have h2 : ((id : Int) + 1) * s = (id : Int) * s + s := by ring
  rw [← hid, h2]
  omega

lemma calculateShardSizes_mem_ub {s n x : Int} (hn : 0 < n)
    (hx : x ∈ calculateShardSizes s n) : x ≤ cdiv s n := by
  rcases List.mem_map.mp hx with ⟨id, _, hid⟩
  have h1 : ((id : Int) * s + s) / n ≤ (id : Int) * s / n + cdiv s n := ediv_add_le _ hn
  have h2 : ((id : Int) + 1) * s = (id : Int) * s + s := by ring
  rw [← hid, h2]
  omega

lemma calculateShardSizes_mem_nonneg {s n x : Int} (hn : 0 < n) (hs : 0 ≤ s)
    (hx : x ∈ calculateShardSizes s n) : 0 ≤ x := by
  have h1 := calculateShardSizes_mem_lb hn hx
  have h2 : 0 ≤ s / n := Int.ediv_nonneg hs hn.le
  omega

lemma sum_le_card_mul_listMax (l : List Int) : l.sum ≤ (l.length : Int) * listMax l := by
  induction l with
  | nil => simp
  | cons x xs ih =>
    cases xs with
    | nil => simp [listMax]
    | cons y ys =>
      have hne : (y :: ys) ≠ ([] : List Int) := by simp
      have h1 : x ≤ listMax (x :: y :: ys) := le_listMax (List.mem_cons_self x (y :: ys))
      have h2 : listMax (y :: ys) ≤ listMax (x :: y :: ys) :=
        listMax_le hne (fun z hz => le_listMax (List.mem_cons_of_mem x hz))
      have h4 : ((y :: ys).length : Int) * listMax (y :: ys)
          ≤ ((y :: ys).length : Int) * listMax (x :: y :: ys) :=
        mul_le_mul_of_nonneg_left h2 (by positivity)
      have h3 := ih
      have hgoal : (x :: y :: ys).sum = x + (y :: ys).sum := by simp
      have hlen : ((x :: y :: ys).length : Int) = ((y :: ys).length : Int) + 1 := by
        simp
      rw [hgoal, hlen]
      nlinarith

lemma listMax_calculateShardSizes {s n : Int} (hn : 0 < n) :
    listMax (calculateShardSizes s n) = cdiv s n := by
  apply le_antisymm
  · exact listMax_le (calculateShardSizes_ne_nil hn)
      (fun x hx => calculateShardSizes_mem_ub hn hx)
  · apply cdiv_le_of_le_mul hn
    have hsum := calculateShardSizes_sum (s := s) hn
    have hlen : (((calculateShardSizes s n).length : ℕ) : Int) = n := by
      rw [calculateShardSizes_length]
      exact Int.toNat_of_nonneg hn.le
    have h := sum_le_card_mul_listMax (calculateShardSizes s n)
    rw [hsum, hlen] at h
    nlinarith

/-! ## Example configurations used by witnesses -/

/-- A sized non-reader scheduler mid-epoch: batch size 2, effective size
4, counter 0. -/
def exSized : SchedState :=
  { numGpus := 1, batchSize := 2, size := 4, autoReset := false, fillLastBatch := true,
    lastBatchPadded := false, counter := 0, readerName := false, sizeNoPad := 7,
    shardsNum := 1, isStickToShard := false, shardsId := [0], counterPerGpu := [0],
    shardSizesPerGpu := [7], shardSizesInitial := [7] }

/-- The spec's single-worker example: dataset of 7 samples, batch size 2,
`fill_last_batch = false`, observed on the fourth batch of the epoch
(counter already advanced to 8). -/
def exC4Single : SchedState :=
  { numGpus := 1, batchSize := 2, size := 8, autoReset := false, fillLastBatch := false,
    lastBatchPadded := false, counter := 8, readerName := true, sizeNoPad := 7,
    shardsNum := 1, isStickToShard := false, shardsId := [0], counterPerGpu := [0],
    shardSizesPerGpu := [7], shardSizesInitial := [7] }

/-- Two workers on shards of initial sizes 7 and 8, batch size 2,
`fill_last_batch = false`, counter 8: worker 0 has one padded slot
(remaining 1 < 2), worker 1 has none (remaining 2). -/
def exC4Two : SchedState :=
  { numGpus := 2, batchSize := 2, size := 8, autoReset := false, fillLastBatch := false,
    lastBatchPadded := false, counter := 8, readerName := true, sizeNoPad := 15,
    shardsNum := 2, isStickToShard := false, shardsId := [0, 1], counterPerGpu := [0, 0],
    shardSizesPerGpu := [7, 8], shardSizesInitial := [7, 8] }

/-! ## C3: `_check_stop` -/

/-- C3: `_check_stop` raises the end-of-epoch signal (`StopIteration`,
second component `true`) iff `counter >= effective_size` and
`effective_size > 0`; when it signals with `auto_reset` set it performs
`reset()` before raising; when it does not signal the state is
unchanged. -/
theorem checkStop_spec (s : SchedState) :
    ((checkStop s).2 = true ↔ s.size ≤ s.counter ∧ 0 < s.size)
    ∧ (s.autoReset = true → (checkStop s).2 = true → (checkStop s).1 = (reset s).1)
    ∧ (s.autoReset = false → (checkStop s).2 = true → (checkStop s).1 = s)
    ∧ ((checkStop s).2 = false → (checkStop s).1 = s) := by
  unfold checkStop
  by_cases h : s.counter ≥ s.size ∧ 0 < s.size
  · cases har : s.autoReset <;> simp [h, har]
  · have h' : ¬ (s.size ≤ s.counter ∧ 0 < s.size) := h
    simp [h, h']

/-- Witness for C3 at a concrete mid-epoch state. -/
theorem checkStop_spec_witness : (checkStop exSized).1 = exSized :=
  (checkStop_spec exSized).2.2.2 (by decide)

/-! ## C4: `_remove_padded` -/

/-- Counterexample to C4 as stated: the claim says `_remove_padded`
returns the scalar `has_padding = any(remaining[w] < batch_size)`; on a
two-worker state whose remaining counts are `[1, 2]` with batch size 2
the `any` is `true`, but the code returns the per-worker numpy vector
`np.less(left, batch_size) = [True, False]`, not the scalar `True`. -/
theorem removePadded_counterexample :
    (removePadded exC4Two).2 = Sum.inr [1, 2]
    ∧ ((1 : Int) < 2 ∨ (2 : Int) < 2)
    ∧ (removePadded exC4Two).1 ≠ Sum.inl true
    ∧ (removePadded exC4Two).1 = Sum.inr [true, false] := by decide

/-- C4 (amended): `_remove_padded` returns the scalar pair
`(False, -1)` whenever `fill_last_batch` is set; otherwise it returns,
per worker `w`, `remaining[w] = batch_size - (counter -
shard_sizes_initial[current_shard_id[w]])` together with the per-worker
vector `has_padding[w] = (remaining[w] < batch_size)` (whose
disjunction is the claimed `any`); on the spec's single-worker
7-sample/batch-2 example at the fourth batch it reports
`has_padding = [true]` and `remaining = [1]`. -/
theorem removePadded_spec (s : SchedState) :
    (s.fillLastBatch = true → removePadded s = (Sum.inl false, Sum.inl (-1)))
    ∧ (s.fillLastBatch = false →
        removePadded s =
          (Sum.inr ((s.shardsId.map
              (fun sid => s.batchSize - (s.counter - s.shardSizesInitial.getD sid.toNat 0))).map
                (fun r => decide (r < s.batchSize))),
           Sum.inr (s.shardsId.map
              (fun sid => s.batchSize - (s.counter - s.shardSizesInitial.getD sid.toNat 0)))))
    ∧ removePadded exC4Single = (Sum.inr [true], Sum.inr [1]) := by
  refine ⟨fun hf => ?_, fun hf => ?_, by decide⟩
  · simp [removePadded, hf]
  · simp [removePadded, hf]

/-- Witness for C4 (amended) at the single-worker example state. -/
theorem removePadded_spec_witness :
    removePadded exC4Single = (Sum.inr [true], Sum.inr [1]) :=
  (removePadded_spec exC4Single).2.2

/-! ## C5: the balanced shard partition -/

/-- C5: for every `shards_num ≥ 1` and `size_no_pad ≥ 0` the shard sizes
computed by `_calculate_shard_sizes` sum to exactly `size_no_pad` and
differ by at most 1 between shards. -/
theorem calculateShardSizes_balanced (s n : Int) (hn : 1 ≤ n) (hs : 0 ≤ s) :
    (calculateShardSizes s n).sum = s
    ∧ listMax (calculateShardSizes s n) - listMin (calculateShardSizes s n) ≤ 1 := by
  have hn' : (0 : Int) < n := hn
  refine ⟨calculateShardSizes_sum hn', ?_⟩
  have hub : listMax (calculateShardSizes s n) ≤ cdiv s n :=
    listMax_le (calculateShardSizes_ne_nil hn') (fun x hx => calculateShardSizes_mem_ub hn' hx)
  have hlb : s / n ≤ listMin (calculateShardSizes s n) :=
    le_listMin (calculateShardSizes_ne_nil hn') (fun x hx => calculateShardSizes_mem_lb hn' hx)
  have hcd : cdiv s n ≤ s / n + 1 := cdiv_le_ediv_add_one s hn'
  omega

/-- Witness for C5 on 7 samples split across 3 shards. -/
theorem calculateShardSizes_balanced_witness :
    (calculateShardSizes 7 3).sum = 7
    ∧ listMax (calculateShardSizes 7 3) - listMin (calculateShardSizes 7 3) ≤ 1 :=
  calculateShardSizes_balanced 7 3 (by decide) (by decide)

/-! ## C9: premature `reset` is a no-op -/

/-- C9: in sized mode (`effective_size ≥ 0`) a `reset()` call while
`counter < effective_size` changes nothing — no counter, size, shard id,
per-worker counter or shard-size update, and no collaborator call
(second component `false`). -/
theorem reset_premature_noop (s : SchedState) (hsize : 0 ≤ s.size)
    (hc : s.counter < s.size) : reset s = (s, false) := by
  have hguard : ¬ (s.counter ≥ s.size ∨ s.size < 0) := by push_neg; exact ⟨hc, hsize⟩
  simp [reset, hguard]

/-- Witness for C9 at a concrete mid-epoch state. -/
theorem reset_premature_noop_witness : reset exSized = (exSized, false) :=
  reset_premature_noop exSized (by decide) (by decide)

/-! ## Projection facts: which fields each phase leaves untouched -/

@[simp] lemma resetRebase_numGpus (s : SchedState) : (resetRebase s).numGpus = s.numGpus := by
  unfold resetRebase; split_ifs <;> rfl

@[simp] lemma resetRebase_batchSize (s : SchedState) :
    (resetRebase s).batchSize = s.batchSize := by
  unfold resetRebase; split_ifs <;> rfl

@[simp] lemma resetRebase_size (s : SchedState) : (resetRebase s).size = s.size := by
  unfold resetRebase; split_ifs <;> rfl

@[simp] lemma resetRebase_autoReset (s : SchedState) :
    (resetRebase s).autoReset = s.autoReset := by
  unfold resetRebase; split_ifs <;> rfl

@[simp] lemma resetRebase_fillLastBatch (s : SchedState) :
    (resetRebase s).fillLastBatch = s.fillLastBatch := by
  unfold resetRebase; split_ifs <;> rfl

@[simp] lemma resetRebase_lastBatchPadded (s : SchedState) :
    (resetRebase s).lastBatchPadded = s.lastBatchPadded := by
  unfold resetRebase; split_ifs <;> rfl

@[simp] lemma resetRebase_readerName (s : SchedState) :
    (resetRebase s).readerName = s.readerName := by
  unfold resetRebase; split_ifs <;> rfl

@[simp] lemma resetRebase_sizeNoPad (s : SchedState) :
    (resetRebase s).sizeNoPad = s.sizeNoPad := by
  unfold resetRebase; split_ifs <;> rfl

@[simp] lemma resetRebase_shardsNum (s : SchedState) :
    (resetRebase s).shardsNum = s.shardsNum := by
  unfold resetRebase; split_ifs <;> rfl

@[simp] lemma resetRebase_isStickToShard (s : SchedState) :
    (resetRebase s).isStickToShard = s.isStickToShard := by
  unfold resetRebase; split_ifs <;> rfl

@[simp] lemma resetRebase_shardsId (s : SchedState) :
    (resetRebase s).shardsId = s.shardsId := by
  unfold resetRebase; split_ifs <;> rfl

@[simp] lemma resetRebase_shardSizesPerGpu (s : SchedState) :
    (resetRebase s).shardSizesPerGpu = s.shardSizesPerGpu := by
  unfold resetRebase; split_ifs <;> rfl

@[simp] lemma resetRebase_shardSizesInitial (s : SchedState) :
    (resetRebase s).shardSizesInitial = s.shardSizesInitial := by
  unfold resetRebase; split_ifs <;> rfl

@[simp] lemma resetAdvance_numGpus (s : SchedState) : (resetAdvance s).numGpus = s.numGpus := by
  unfold resetAdvance; dsimp only; split_ifs <;> rfl

@[simp] lemma resetAdvance_batchSize (s : SchedState) :
    (resetAdvance s).batchSize = s.batchSize := by
  unfold resetAdvance; dsimp only; split_ifs <;> rfl

@[simp] lemma resetAdvance_autoReset (s : SchedState) :
    (resetAdvance s).autoReset = s.autoReset := by
  unfold resetAdvance; dsimp only; split_ifs <;> rfl

@[simp] lemma resetAdvance_fillLastBatch (s : SchedState) :
    (resetAdvance s).fillLastBatch = s.fillLastBatch := by
  unfold resetAdvance; dsimp only; split_ifs <;> rfl

@[simp] lemma resetAdvance_lastBatchPadded (s : SchedState) :
    (resetAdvance s).lastBatchPadded = s.lastBatchPadded := by
  unfold resetAdvance; dsimp only; split_ifs <;> rfl

@[simp] lemma resetAdvance_readerName (s : SchedState) :
    (resetAdvance s).readerName = s.readerName := by
  unfold resetAdvance; dsimp only; split_ifs <;> rfl

@[simp] lemma resetAdvance_sizeNoPad (s : SchedState) :
    (resetAdvance s).sizeNoPad = s.sizeNoPad := by
  unfold resetAdvance; dsimp only; split_ifs <;> rfl

@[simp] lemma resetAdvance_shardsNum (s : SchedState) :
    (resetAdvance s).shardsNum = s.shardsNum := by
  unfold resetAdvance; dsimp only; split_ifs <;> rfl

@[simp] lemma resetAdvance_isStickToShard (s : SchedState) :
    (resetAdvance s).isStickToShard = s.isStickToShard := by
  unfold resetAdvance; dsimp only; split_ifs <;> rfl

@[simp] lemma resetAdvance_shardSizesInitial (s : SchedState) :
    (resetAdvance s).shardSizesInitial = s.shardSizesInitial := by
  unfold resetAdvance; dsimp only; split_ifs <;> rfl

lemma resetAdvance_shardsId (s : SchedState) (hr : s.readerName = true)
    (hstick : s.isStickToShard = false) :
    (resetAdvance s).shardsId = s.shardsId.map (advanceShardId s.shardsNum) := by
  unfold resetAdvance
  simp only [hr, hstick, Bool.false_eq_true, if_false, if_true]
  split_ifs <;> rfl

lemma resetAdvance_shardsId_stick (s : SchedState) (hstick : s.isStickToShard = true) :
    (resetAdvance s).shardsId = s.shardsId := by
  unfold resetAdvance
  simp only [hstick, if_true]
  split_ifs <;> rfl

/-! ## C1 and C2: the boundary `reset` in fill/no-pad mode

The next three definitions transcribe the *spec's* description of the
reader-driven boundary reset (rebase the counter by
`min(counter_per_worker)`, add the rebased counter into every entry,
subtract the current shard sizes, take the minimum; roll the shard
sizes unless sticking; recompute the effective size from the maximal
remaining read), to be compared with the code's `reset`. -/

/-- Spec-side description: `counter_per_worker` after the rebase —
every entry gets the rebased counter `counter - min(counter_per_worker)`
added and the current `current_shard_sizes` subtracted. -/
def rebasedCounters (s : SchedState) : List Int :=
  List.zipWith (fun x y => x - y)
    (s.counterPerGpu.map (fun c => c + (s.counter - listMin s.counterPerGpu)))
    s.shardSizesPerGpu

/-- Spec-side description: `current_shard_sizes` after the boundary
roll — rolled one position unless `stick_to_shard`. -/
def rolledSizes (s : SchedState) : List Int :=
  if s.isStickToShard then s.shardSizesPerGpu else roll s.shardSizesPerGpu

/-- Spec-side description: the recomputed effective size
`ceil(max(current_shard_sizes - counter_per_worker) / batch_size) *
batch_size` over the rolled sizes and rebased counters. -/
def recomputedSize (s : SchedState) : Int :=
  cdiv (listMax (List.zipWith (fun x y => x - y) (rolledSizes s) (rebasedCounters s)))
      s.batchSize
    * s.batchSize

/-- C1: at an epoch boundary (`counter ≥ effective_size`) with
`fill_last_batch` set and `last_batch_padded` unset, `reset()` rebases
the step counter exactly as the spec states: reader-driven, it
subtracts `min(counter_per_worker)` from `counter`, adds the rebased
`counter` to every `counter_per_worker` entry, subtracts the current
`current_shard_sizes` entrywise, sets `counter =
min(counter_per_worker)`, and only then runs the shard-advance phase;
non-reader-driven, it sets `counter = counter % effective_size`. -/
theorem reset_rebase_spec (s : SchedState) (hb : s.size ≤ s.counter)
    (hf : s.fillLastBatch = true) (hp : s.lastBatchPadded = false) :
    (s.readerName = true →
      (reset s).1 = resetAdvance
        { s with counter := listMin (rebasedCounters s), counterPerGpu := rebasedCounters s })
    ∧ (s.readerName = false → (reset s).1.counter = s.counter % s.size) := by
  have hguard : s.counter ≥ s.size ∨ s.size < 0 := Or.inl hb
  constructor
  · intro hr
    have h2 : resetRebase s
        = { s with counter := listMin (rebasedCounters s), counterPerGpu := rebasedCounters s } := by
      simp [resetRebase, hf, hp, hr, rebasedCounters]
    simp [reset, hguard, h2]
  · intro hr
    have h2 : resetRebase s = { s with counter := s.counter % s.size } := by
      simp [resetRebase, hf, hp, hr]
    simp [reset, hguard, h2, resetAdvance, hr]

/-- Shared description of the reader-driven boundary `reset()` in
fill/no-pad mode: the effective-size recomputation and the degenerate
epoch skip, phrased through `rebasedCounters`, `rolledSizes` and
`recomputedSize`. -/
lemma reset_boundary_fill_nopad (s : SchedState) (hb : s.size ≤ s.counter)
    (hf : s.fillLastBatch = true) (hp : s.lastBatchPadded = false)
    (hr : s.readerName = true) :
    (recomputedSize s ≠ 0 →
      (reset s).1.size = recomputedSize s
      ∧ (reset s).1.shardSizesPerGpu = rolledSizes s
      ∧ (reset s).1.counterPerGpu = rebasedCounters s
      ∧ (reset s).1.counter = listMin (rebasedCounters s))
    ∧ (recomputedSize s = 0 →
      (reset s).1.size = cdiv (listMax (roll (rolledSizes s))) s.batchSize * s.batchSize
      ∧ (reset s).1.shardSizesPerGpu = roll (rolledSizes s)
      ∧ (reset s).1.counterPerGpu = List.replicate s.shardsNum.toNat 0
      ∧ (reset s).1.counter = 0) := by
  have hguard : s.counter ≥ s.size ∨ s.size < 0 := Or.inl hb
  have h2 : resetRebase s
      = { s with counter := listMin (rebasedCounters s), counterPerGpu := rebasedCounters s } := by
    simp [resetRebase, hf, hp, hr, rebasedCounters]
  by_cases hstick : s.isStickToShard
  · by_cases hz : recomputedSize s = 0
    · rw [recomputedSize, rolledSizes, if_pos hstick] at hz
      constructor
      · intro hcon
        exact absurd (by rw [recomputedSize, rolledSizes, if_pos hstick]; exact hz) hcon
      · intro _
        simp [reset, hguard, h2, resetAdvance, hf, hp, hr, hstick, hz, rolledSizes,
          recomputedSize]
    · rw [recomputedSize, rolledSizes, if_pos hstick] at hz
      constructor
      · intro _
        simp [reset, hguard, h2, resetAdvance, hf, hp, hr, hstick, hz, rolledSizes,
          recomputedSize]
      · intro hcon
        exact absurd hcon (by rw [recomputedSize, rolledSizes, if_pos hstick]; exact hz)
  · by_cases hz : recomputedSize s = 0
    · rw [recomputedSize, rolledSizes, if_neg hstick] at hz
      constructor
      · intro hcon
        exact absurd (by rw [recomputedSize, rolledSizes, if_neg hstick]; exact hz) hcon
      · intro _
        simp [reset, hguard, h2, resetAdvance, hf, hp, hr, hstick, hz, rolledSizes,
          recomputedSize]
    · rw [recomputedSize, rolledSizes, if_neg hstick] at hz
      constructor
      · intro _
        simp [reset, hguard, h2, resetAdvance, hf, hp, hr, hstick, hz, rolledSizes,
          recomputedSize]
      · intro hcon
        exact absurd hcon (by rw [recomputedSize, rolledSizes, if_neg hstick]; exact hz)

/-- C2: for a reader-driven boundary `reset()` with `fill_last_batch`
set and `last_batch_padded` unset: after the counter rebase and the
shard-size roll (skipped when `stick_to_shard`), the new
`effective_size` is `ceil(max(current_shard_sizes[w] -
counter_per_worker[w]) / batch_size) * batch_size`; when that value is
0 the epoch is skipped — `counter_per_worker` and `counter` are zeroed,
`current_shard_sizes` is rolled one more position, and `effective_size`
is recomputed as `ceil(max(current_shard_sizes) / batch_size) *
batch_size`. -/
theorem reset_resize_spec (s : SchedState) (hb : s.size ≤ s.counter)
    (hf : s.fillLastBatch = true) (hp : s.lastBatchPadded = false)
    (hr : s.readerName = true) :
    (recomputedSize s ≠ 0 →
      (reset s).1.size = recomputedSize s
      ∧ (reset s).1.shardSizesPerGpu = rolledSizes s
      ∧ (reset s).1.counterPerGpu = rebasedCounters s
      ∧ (reset s).1.counter = listMin (rebasedCounters s))
    ∧ (recomputedSize s = 0 →
      (reset s).1.size = cdiv (listMax (roll (rolledSizes s))) s.batchSize * s.batchSize
      ∧ (reset s).1.shardSizesPerGpu = roll (rolledSizes s)
      ∧ (reset s).1.counterPerGpu = List.replicate s.shardsNum.toNat 0
      ∧ (reset s).1.counter = 0) :=
  reset_boundary_fill_nopad s hb hf hp hr

/-- A reader-driven scheduler at its first epoch boundary: 5 samples in
2 shards (sizes `[2, 3]`), batch size 2, effective size 4, counter 4. -/
def exBoundary : SchedState :=
  { numGpus := 1, batchSize := 2, size := 4, autoReset := false, fillLastBatch := true,
    lastBatchPadded := false, counter := 4, readerName := true, sizeNoPad := 5,
    shardsNum := 2, isStickToShard := false, shardsId := [0], counterPerGpu := [0, 0],
    shardSizesPerGpu := [2, 3], shardSizesInitial := [2, 3] }

/-- Witness for C1 at the concrete boundary state. -/
theorem reset_rebase_spec_witness :
    (reset exBoundary).1 = resetAdvance
      { exBoundary with
        counter := listMin (rebasedCounters exBoundary)
        counterPerGpu := rebasedCounters exBoundary } :=
  (reset_rebase_spec exBoundary (by decide) (by decide) (by decide)).1 (by decide)

/-- Witness for C2 at the concrete boundary state (non-degenerate
branch: the recomputed size is 2). -/
theorem reset_resize_spec_witness :
    (reset exBoundary).1.size = recomputedSize exBoundary
    ∧ (reset exBoundary).1.shardSizesPerGpu = rolledSizes exBoundary
    ∧ (reset exBoundary).1.counterPerGpu = rebasedCounters exBoundary
    ∧ (reset exBoundary).1.counter = listMin (rebasedCounters exBoundary) :=
  (reset_resize_spec exBoundary (by decide) (by decide) (by decide) (by decide)).1 (by decide)

/-! ## C6: the initial reader-driven effective size -/

/-- C6: at construction with `reader_name` set, the initial
`effective_size` equals `epoch_size_padded // shards_num` when the
derived `pad_last_batch` is true, and
`ceil(ceil(size_no_pad / shards_num) / batch_size) * batch_size` when
it is false. -/
theorem initScheduler_reader_size (p0 : Pipe) (rest : List Pipe) (size : Int)
    (ar fill lbp : Bool) (st : SchedState)
    (h : initScheduler (p0 :: rest) size true ar fill lbp = .ok st) :
    st.size = if p0.meta.padLastBatch
      then p0.meta.epochSizePadded / p0.meta.numberOfShards
      else cdiv (cdiv p0.meta.epochSize p0.meta.numberOfShards) p0.batchSize * p0.batchSize := by
  simp only [initScheduler] at h
  simp only [Bool.true_eq_false, and_false, if_false] at h
  split_ifs at h with h1 h2 h3 h4 h5
  all_goals try exact Except.noConfusion h
  simp only [extractFromReaderAndValidate, List.map_cons] at h
  rw [if_pos trivial] at h
  split_ifs at h with g1 g2 g3 g4 g5
  all_goals try exact Except.noConfusion h
  · injection h with h6
    rw [← h6, if_pos g5]
  · injection h with h6
    rw [← h6, if_neg g5]

/-- The pipeline whose construction produces `exBoundary`: batch size 2,
reader epoch size 5 over 2 shards, `pad_last_batch` false. -/
def exPipe : Pipe := ⟨2, ⟨5, 6, 2, 0, false, false⟩⟩

/-- The state constructed from `exPipe`: `exBoundary` before any batch
was drawn (counter 0). -/
def exInit : SchedState := { exBoundary with counter := 0 }

/-- Witness for C6: constructing from `exPipe` yields effective size
`ceil(ceil(5 / 2) / 2) * 2 = 4`. -/
theorem initScheduler_reader_size_witness :
    exInit.size = if exPipe.meta.padLastBatch
      then exPipe.meta.epochSizePadded / exPipe.meta.numberOfShards
      else cdiv (cdiv exPipe.meta.epochSize exPipe.meta.numberOfShards) exPipe.batchSize
        * exPipe.batchSize :=
  initScheduler_reader_size exPipe [] (-1) false true false exInit
    (by with_unfolding_all rfl)

/-! ## C10: `ConfigMismatch` at construction -/

/-- C10: construction fails with `ConfigMismatch` immediately — it
returns an error, so no scheduler state exists and no iteration can
start — whenever workers disagree on `batch_size`, or, in reader-driven
mode (with otherwise legal sizing parameters), whenever they disagree
on the reader's `epoch_size` or `number_of_shards`, or the
`pad_last_batch` or `stick_to_shard` flags are mixed across workers. -/
theorem initScheduler_config_mismatch (p0 : Pipe) (rest : List Pipe) (size : Int)
    (rn ar fill lbp : Bool) :
    (¬ (∀ p ∈ p0 :: rest, p.batchSize = p0.batchSize) →
      initScheduler (p0 :: rest) size rn ar fill lbp = .error .configMismatch)
    ∧ ((∀ p ∈ p0 :: rest, p.batchSize = p0.batchSize) → size < 0 → rn = true → lbp = false →
      (¬ (∀ m ∈ (p0 :: rest).map Pipe.meta, m.epochSize = p0.meta.epochSize)
        ∨ ¬ (∀ m ∈ (p0 :: rest).map Pipe.meta, m.numberOfShards = p0.meta.numberOfShards)
        ∨ ¬ ((∀ m ∈ (p0 :: rest).map Pipe.meta, m.padLastBatch = true)
            ∨ (∀ m ∈ (p0 :: rest).map Pipe.meta, m.padLastBatch = false))
        ∨ ¬ ((∀ m ∈ (p0 :: rest).map Pipe.meta, m.stickToShard = true)
            ∨ (∀ m ∈ (p0 :: rest).map Pipe.meta, m.stickToShard = false))) →
      initScheduler (p0 :: rest) size rn ar fill lbp = .error .configMismatch) := by
  constructor
  · intro hbat
    simp only [initScheduler]
    rw [if_pos hbat]
  · intro hbat hsz hrn hlbp hdisj
    subst hrn
    subst hlbp
    simp only [initScheduler]
    rw [if_neg (not_not_intro hbat)]
    rw [if_neg (by omega : ¬ size = 0)]
    rw [if_neg (not_not_intro (Or.inr ⟨hsz, Or.inr trivial⟩))]
    rw [if_neg (by simpa using hsz : ¬ (True ∧ ¬ size < 0))]
    rw [if_neg (by simp : ¬ (True ∧ false = true))]
    simp only [extractFromReaderAndValidate, List.map_cons]
    rw [if_pos (by trivial)]
    split_ifs with g1 g2 g3 g4 g5
    all_goals try rfl
    all_goals
      exfalso
      rcases hdisj with h | h | h | h
      · exact h (by simpa using g1)
      · exact h (by simpa using g2)
      · exact h (by simpa using g3)
      · exact h (by simpa using g4)

/-- Witness for C10: two pipelines whose readers report different epoch
sizes (5 and 6) are rejected with `ConfigMismatch`. -/
theorem initScheduler_config_mismatch_witness :
    initScheduler [⟨2, ⟨5, 6, 2, 0, false, false⟩⟩, ⟨2, ⟨6, 6, 2, 1, false, false⟩⟩]
        (-1) true false true false
      = .error .configMismatch :=
  (initScheduler_config_mismatch ⟨2, ⟨5, 6, 2, 0, false, false⟩⟩
      [⟨2, ⟨6, 6, 2, 1, false, false⟩⟩] (-1) true false true false).2
    (by decide) (by decide) rfl rfl (Or.inl (by decide))

/-! ## C8: shard rotation -/

lemma advanceShardId_iterate {n : Int} (hn : 0 < n) {i : Int} (hi0 : 0 ≤ i) (hin : i < n) :
    ∀ t : ℕ, (advanceShardId n)^[t] i = (i + t) % n := by
  have key : ∀ a : Int, (a % n + 1) % n = (a + 1) % n := by
    intro a
    conv_rhs => rw [Int.add_emod]
    rw [Int.add_emod (a % n) 1, Int.emod_emod_of_dvd _ dvd_rfl]
  intro t
  induction t with
  | zero => simp [Int.emod_eq_of_lt hi0 hin]
  | succ m ih =>
    rw [Function.iterate_succ_apply', ih]
    unfold advanceShardId
    have h1 : (i + (m + 1 : ℕ) : Int) = (i + m) + 1 := by push_cast; ring
    rw [h1, key]

lemma visited_perm {n : Int} (hn : 0 < n) {i : Int} (hi0 : 0 ≤ i) (hin : i < n) :
    ((List.range n.toNat).map (fun (t : ℕ) => (i + t) % n)).Perm
      ((List.range n.toNat).map (fun (t : ℕ) => (t : Int))) := by
  apply List.perm_of_nodup_nodup_toFinset_eq
  · refine List.Nodup.map_on ?_ (List.nodup_range _)
    intro t1 ht1 t2 ht2 he
    rw [List.mem_range] at ht1 ht2
    have hb1 : (t1 : Int) < n := by omega
    have hb2 : (t2 : Int) < n := by omega
    have ht10 : (0 : Int) ≤ t1 := Int.ofNat_nonneg t1
    have ht20 : (0 : Int) ≤ t2 := Int.ofNat_nonneg t2
    have h1 : ((i + t1) - (i + t2) : Int) % n = 0 := by
      rw [Int.sub_emod, he, sub_self, Int.zero_emod]
    have h2 : ((i + t1) - (i + t2) : Int) = (t1 : Int) - t2 := by ring
    rw [h2] at h1
    rcases Int.dvd_of_emod_eq_zero h1 with ⟨c, hc⟩
    have hc0 : c = 0 := by
      rcases lt_trichotomy c 0 with h | h | h
      · have hcle : c ≤ -1 := by omega
        have := mul_le_mul_of_nonneg_left hcle hn.le
        linarith
      · exact h
      · have hcge : 1 ≤ c := by omega
        have := mul_le_mul_of_nonneg_left hcge hn.le
        linarith
    rw [hc0, mul_zero] at hc
    omega
  · refine List.Nodup.map_on ?_ (List.nodup_range _)
    intro t1 _ t2 _ he
    exact_mod_cast he
  · apply Finset.ext
    intro x
    simp only [List.mem_toFinset, List.mem_map, List.mem_range]
    constructor
    · rintro ⟨t, ht, rfl⟩
      have h1 : 0 ≤ (i + t) % n := Int.emod_nonneg _ hn.ne'
      have h2 : (i + t) % n < n := Int.emod_lt_of_pos _ hn
      exact ⟨((i + t) % n).toNat, by omega, Int.toNat_of_nonneg h1⟩
    · rintro ⟨u, hu, rfl⟩
      have hun : (u : Int) < n := by omega
      have hu0 : (0 : Int) ≤ u := Int.ofNat_nonneg u
      have h1 : 0 ≤ ((u : Int) - i) % n := Int.emod_nonneg _ hn.ne'
      have h2 : ((u : Int) - i) % n < n := Int.emod_lt_of_pos _ hn
      refine ⟨(((u : Int) - i) % n).toNat, by omega, ?_⟩
      rw [Int.toNat_of_nonneg h1]
      have key : (i + ((u : Int) - i) % n) % n = (i + ((u : Int) - i)) % n := by
        conv_rhs => rw [Int.add_emod]
        rw [Int.add_emod i (((u : Int) - i) % n), Int.emod_emod_of_dvd _ dvd_rfl]
      rw [key]
      have h3 : (i + ((u : Int) - i) : Int) = (u : Int) := by ring
      rw [h3]
      exact Int.emod_eq_of_lt hu0 hun

lemma advance_map_range {n : Int} (hn : 0 < n) :
    ((List.range n.toNat).map (fun (t : ℕ) => (t : Int))).map (advanceShardId n)
      = ((List.range n.toNat).map (fun (t : ℕ) => (t : Int))).rotate 1 := by
  apply List.ext_getElem
  · simp
  · intro j h1 h2
    simp only [List.getElem_map, List.getElem_rotate, List.getElem_range, List.length_map,
      List.length_range]
    unfold advanceShardId
    have hcast : ((((j + 1) % n.toNat : ℕ)) : Int) = ((j + 1 : ℕ) : Int) % (n.toNat : Int) :=
      Int.natCast_mod _ _
    rw [hcast, Int.toNat_of_nonneg hn.le]
    push_cast
    ring_nf

lemma advance_map_range_perm {n : Int} (hn : 0 < n) :
    (((List.range n.toNat).map (fun (t : ℕ) => (t : Int))).map (advanceShardId n)).Perm
      ((List.range n.toNat).map (fun (t : ℕ) => (t : Int))) := by
  rw [advance_map_range hn]
  exact List.rotate_perm _ 1

/-- Counterexample to C8 as stated: a legal boundary state with two
workers both holding shard 0 of 2 (`stick_to_shard` false) in padded
mode.  After one `reset()` the shard ids are `[1, 1]`: the multiset of
assigned ids changes from `{0, 0}` to `{1, 1}`, and the shard sizes
`[1, 2]` are not rolled (the roll only happens in the fill/no-pad
branch). -/
def exC8 : SchedState :=
  { numGpus := 2, batchSize := 2, size := 2, autoReset := false, fillLastBatch := true,
    lastBatchPadded := true, counter := 2, readerName := true, sizeNoPad := 3,
    shardsNum := 2, isStickToShard := false, shardsId := [0, 0], counterPerGpu := [0, 0],
    shardSizesPerGpu := [1, 2], shardSizesInitial := [1, 2] }

/-- Counterexample theorem for C8: on `exC8` a boundary `reset()`
advances every id, so the multiset of worker shard ids is *not*
preserved, and `current_shard_sizes` is *not* rolled. -/
theorem reset_rotation_counterexample :
    (reset exC8).1.shardsId = [1, 1]
    ∧ Multiset.ofList ((reset exC8).1.shardsId) ≠ Multiset.ofList exC8.shardsId
    ∧ (reset exC8).1.shardSizesPerGpu ≠ roll exC8.shardSizesPerGpu := by decide

/-- C8 (amended): in reader-driven mode with `stick_to_shard` false,
every boundary `reset()` advances each worker's shard id to
`(shard_id + 1) % shards_num`; `current_shard_sizes` is rolled
correspondingly in the fill/no-pad branch (one position when the
recomputed size is nonzero); when the worker shard ids form a complete
residue system `0, …, shards_num - 1` (the standard configuration) the
multiset of assigned ids is unchanged by a reset; and iterating the
advance map `shards_num` times lets every worker visit every shard
exactly once. -/
theorem reset_rotation_spec (s : SchedState) (hb : s.size ≤ s.counter)
    (hr : s.readerName = true) (hstick : s.isStickToShard = false) :
    ((reset s).1.shardsId = s.shardsId.map (advanceShardId s.shardsNum))
    ∧ (s.fillLastBatch = true → s.lastBatchPadded = false → recomputedSize s ≠ 0 →
        (reset s).1.shardSizesPerGpu = roll s.shardSizesPerGpu)
    ∧ (s.shardsId.Perm ((List.range s.shardsNum.toNat).map (fun (t : ℕ) => (t : Int))) →
        Multiset.ofList ((reset s).1.shardsId) = Multiset.ofList s.shardsId)
    ∧ (∀ i : Int, 0 ≤ i → i < s.shardsNum →
        ((List.range s.shardsNum.toNat).map (fun t => (advanceShardId s.shardsNum)^[t] i)).Perm
          ((List.range s.shardsNum.toNat).map (fun (t : ℕ) => (t : Int)))) := by
  have h0 : (reset s).1 = resetAdvance (resetRebase s) := by
    simp [reset, Or.inl hb]
  have h1 : (reset s).1.shardsId = s.shardsId.map (advanceShardId s.shardsNum) := by
    rw [h0, resetAdvance_shardsId (resetRebase s) (by simp [hr]) (by simp [hstick])]
    simp
  refine ⟨h1, ?_, ?_, ?_⟩
  · intro hf hp hnz
    have h2 := (reset_boundary_fill_nopad s hb hf hp hr).1 hnz
    rw [h2.2.1, rolledSizes, if_neg (by simp [hstick])]
  · intro hperm
    rw [Multiset.coe_eq_coe, h1]
    rcases le_or_lt s.shardsNum 0 with hn | hn
    · have hz : s.shardsNum.toNat = 0 := by omega
      rw [hz] at hperm
      simp only [List.range_zero, List.map_nil] at hperm
      rw [List.Perm.eq_nil hperm]
      simp
    · have hstep : (s.shardsId.map (advanceShardId s.shardsNum)).Perm
          (((List.range s.shardsNum.toNat).map (fun (t : ℕ) => (t : Int))).map
            (advanceShardId s.shardsNum)) := hperm.map _
      exact hstep.trans ((advance_map_range_perm hn).trans hperm.symm)
  · intro i hi0 hin
    have hn : 0 < s.shardsNum := lt_of_le_of_lt hi0 hin
    have hcongr : (List.range s.shardsNum.toNat).map
          (fun t => (advanceShardId s.shardsNum)^[t] i)
        = (List.range s.shardsNum.toNat).map (fun (t : ℕ) => (i + t) % s.shardsNum) :=
      List.map_congr_left (fun t _ => advanceShardId_iterate hn hi0 hin t)
    rw [hcongr]
    exact visited_perm hn hi0 hin

/-- Witness for C8 (amended) at the concrete boundary state. -/
theorem reset_rotation_spec_witness :
    (reset exBoundary).1.shardsId
      = exBoundary.shardsId.map (advanceShardId exBoundary.shardsNum) :=
  (reset_rotation_spec exBoundary (by decide) (by decide) (by decide)).1

/-! ## C7: the effective size stays a non-negative multiple of the
batch size

`epochInv` is the inductive invariant carried through every reachable
state of a reader-driven scheduler with `fill_last_batch` set over a
nonempty dataset. -/

/-- `current_shard_sizes - counter_per_worker`, the per-slot number of
samples still to be read in the running epoch (the quantity the reset
calls `read_in_next_epoch`). -/
def readArray (s : SchedState) : List Int :=
  List.zipWith (fun x y => x - y) s.shardSizesPerGpu s.counterPerGpu

/-- Inductive invariant for reader-driven `fill_last_batch` schedulers
over a nonempty dataset. -/
def epochInv (s : SchedState) : Prop :=
  1 ≤ s.batchSize ∧ 1 ≤ s.shardsNum ∧ 1 ≤ s.sizeNoPad
  ∧ s.readerName = true ∧ s.fillLastBatch = true
  ∧ (s.lastBatchPadded = true → 0 ≤ s.size ∧ s.size % s.batchSize = 0)
  ∧ (s.lastBatchPadded = false →
      s.counterPerGpu.length = s.shardsNum.toNat
      ∧ s.shardSizesPerGpu.length = s.shardsNum.toNat
      ∧ (∀ x ∈ s.shardSizesPerGpu, 0 ≤ x)
      ∧ listMax s.shardSizesPerGpu = cdiv s.sizeNoPad s.shardsNum
      ∧ 0 ≤ listMin s.counterPerGpu
      ∧ listMin s.counterPerGpu < s.batchSize
      ∧ 1 ≤ listMax (readArray s)
      ∧ s.size = cdiv (listMax (readArray s)) s.batchSize * s.batchSize
      ∧ (∃ j : ℕ, s.counter = listMin s.counterPerGpu + j * s.batchSize)
      ∧ s.counter - s.batchSize < s.size)

@[simp] lemma reset_fst_batchSize (s : SchedState) : (reset s).1.batchSize = s.batchSize := by
  unfold reset; split_ifs <;> simp

@[simp] lemma reset_fst_shardsNum (s : SchedState) : (reset s).1.shardsNum = s.shardsNum := by
  unfold reset; split_ifs <;> simp

@[simp] lemma reset_fst_sizeNoPad (s : SchedState) : (reset s).1.sizeNoPad = s.sizeNoPad := by
  unfold reset; split_ifs <;> simp

@[simp] lemma reset_fst_readerName (s : SchedState) : (reset s).1.readerName = s.readerName := by
  unfold reset; split_ifs <;> simp

@[simp] lemma reset_fst_fillLastBatch (s : SchedState) :
    (reset s).1.fillLastBatch = s.fillLastBatch := by
  unfold reset; split_ifs <;> simp

@[simp] lemma reset_fst_lastBatchPadded (s : SchedState) :
    (reset s).1.lastBatchPadded = s.lastBatchPadded := by
  unfold reset; split_ifs <;> simp

@[simp] lemma reset_fst_isStickToShard (s : SchedState) :
    (reset s).1.isStickToShard = s.isStickToShard := by
  unfold reset; split_ifs <;> simp

lemma listMin_replicate_zero (k : ℕ) (hk : k ≠ 0) : listMin (List.replicate k 0) = 0 := by
  have hne : List.replicate k (0 : Int) ≠ [] := by
    simp [hk]
  exact List.eq_of_mem_replicate (listMin_mem hne)

lemma epochInv_size {s : SchedState} (h : epochInv s) :
    0 ≤ s.size ∧ s.size % s.batchSize = 0 := by
  obtain ⟨hb1, hn1, hs1, hr, hf, hpadded, hnopad⟩ := h
  cases hcase : s.lastBatchPadded with
  | true => exact hpadded hcase
  | false =>
    obtain ⟨-, -, -, -, -, -, hM1, hsize, -, -⟩ := hnopad hcase
    have hb0 : (0 : Int) < s.batchSize := hb1
    constructor
    · rw [hsize]
      exact mul_nonneg (cdiv_nonneg hb0 (by omega)) hb0.le
    · rw [hsize]
      exact cdiv_mul_emod _ _

lemma epochInv_size_pos {s : SchedState} (h : epochInv s)
    (hp : s.lastBatchPadded = false) : s.batchSize ≤ s.size := by
  obtain ⟨hb1, hn1, hs1, hr, hf, hpadded, hnopad⟩ := h
  obtain ⟨-, -, -, -, -, -, hM1, hsize, -, -⟩ := hnopad hp
  have hb0 : (0 : Int) < s.batchSize := hb1
  have h1 : 1 ≤ cdiv (listMax (readArray s)) s.batchSize := cdiv_pos hb0 (by omega)
  rw [hsize]
  exact le_mul_of_one_le_left hb0.le h1

lemma epochInv_step {s : SchedState} (h : epochInv s)
    (hstop : ¬ (s.counter ≥ s.size ∧ 0 < s.size)) : epochInv (stepCounter s) := by
  obtain ⟨hb1, hn1, hs1, hr, hf, hpadded, hnopad⟩ := h
  refine ⟨hb1, hn1, hs1, hr, hf, hpadded, ?_⟩
  intro hp
  obtain ⟨h1, h2, h3, h4, h5, h6, h7, h8, ⟨j, hj⟩, h10⟩ := hnopad hp
  have hszpos : s.batchSize ≤ s.size :=
    epochInv_size_pos ⟨hb1, hn1, hs1, hr, hf, hpadded, hnopad⟩ hp
  have hclt : s.counter < s.size := by
    by_contra hcon
    exact hstop ⟨by omega, by omega⟩
  refine ⟨h1, h2, h3, h4, h5, h6, h7, h8, ⟨j + 1, ?_⟩, ?_⟩
  · show s.counter + s.batchSize = listMin s.counterPerGpu + (j + 1 : ℕ) * s.batchSize
    push_cast
    rw [hj]
    push_cast
    ring
  · show s.counter + s.batchSize - s.batchSize < s.size
    omega

lemma resetAdvance_fields_of_padded (t : SchedState) (hp : t.lastBatchPadded = true) :
    (resetAdvance t).size = t.size ∧ (resetAdvance t).counterPerGpu = t.counterPerGpu
    ∧ (resetAdvance t).shardSizesPerGpu = t.shardSizesPerGpu
    ∧ (resetAdvance t).counter = t.counter := by
  unfold resetAdvance
  dsimp only
  split_ifs <;> simp_all

lemma epochInv_reset {s : SchedState} (h : epochInv s) : epochInv ((reset s).1) := by
  by_cases hguard : s.counter ≥ s.size ∨ s.size < 0
  case neg =>
    have hid : (reset s).1 = s := by simp [reset, hguard]
    rw [hid]
    exact h
  case pos =>
  have hresult : (reset s).1 = resetAdvance (resetRebase s) := by simp [reset, hguard]
  obtain ⟨hb1, hn1, hs1, hr, hf, hpadded, hnopad⟩ := h
  by_cases hp : s.lastBatchPadded = true
  · -- padded mode: reset only zeroes the counter and advances shard ids
    have hrb : resetRebase s = { s with counter := 0 } := by
      unfold resetRebase
      rw [if_neg (by simp [hp])]
    have hfields := resetAdvance_fields_of_padded { s with counter := 0 } (by simpa using hp)
    refine ⟨by simpa using hb1, by simpa using hn1, by simpa using hs1,
      by simp [hr], by simp [hf], ?_, ?_⟩
    · intro _
      have hsz : (reset s).1.size = s.size := by
        rw [hresult, hrb]
        exact hfields.1
      rw [hsz, reset_fst_batchSize]
      exact hpadded hp
    · intro hq
      rw [reset_fst_lastBatchPadded, hp] at hq
      cases hq
  · -- fill / no-pad mode: the main preservation argument
    have hpf : s.lastBatchPadded = false := by simpa using hp
    obtain ⟨hlen1, hlen2, hpos, hmaxS, hc0a, hc0b, hM1, hsize, ⟨j, hj⟩, hcb⟩ := hnopad hpf
    have hb0 : (0 : Int) < s.batchSize := hb1
    have hn0 : (0 : Int) < s.shardsNum := hn1
    have hsz0 : 0 ≤ s.size := by
      rw [hsize]
      exact mul_nonneg (cdiv_nonneg hb0 (by omega)) hb0.le
    have hc : s.size ≤ s.counter := by
      rcases hguard with hg | hg
      · exact hg
      · omega
    -- the rebased counter equals exactly the old effective size
    have hR : s.counter - listMin s.counterPerGpu = s.size := by
      have hjb : s.counter - listMin s.counterPerGpu = (j : Int) * s.batchSize := by
        linarith [hj]
      have hge : (cdiv (listMax (readArray s)) s.batchSize - 1) * s.batchSize
          < (j : Int) * s.batchSize := by nlinarith [hj, hsize, hc, hc0b]
      have hle : (j : Int) * s.batchSize
          < (cdiv (listMax (readArray s)) s.batchSize + 1) * s.batchSize := by
        nlinarith [hj, hsize, hcb, hc0a]
      have h2 : cdiv (listMax (readArray s)) s.batchSize - 1 < (j : Int) :=
        lt_of_mul_lt_mul_right hge hb0.le
      have h3 : (j : Int) < cdiv (listMax (readArray s)) s.batchSize + 1 :=
        lt_of_mul_lt_mul_right hle hb0.le
      have hjB : (j : Int) = cdiv (listMax (readArray s)) s.batchSize := by omega
      rw [hjb, hjB, ← hsize]
    -- the rebased counters, pointwise
    have hreb : rebasedCounters s = (readArray s).map (fun d => s.size - d) := by
      unfold rebasedCounters readArray
      rw [zipWith_sub_map_add, hR]
    have hlenR : (readArray s).length = s.shardsNum.toNat := by
      unfold readArray
      rw [List.length_zipWith, hlen1, hlen2, min_self]
    have hRne : readArray s ≠ [] := by
      intro hcon
      rw [hcon] at hlenR
      simp at hlenR
      omega
    have hmin2 : listMin (rebasedCounters s) = s.size - listMax (readArray s) := by
      rw [hreb, listMin_map_sub _ _ hRne]
    have hsizeM : listMax (readArray s) ≤ s.size := by
      rw [hsize]
      exact le_cdiv_mul _ hb0
    have hsizeM2 : s.size < listMax (readArray s) + s.batchSize := by
      rw [hsize]
      exact cdiv_mul_lt _ hb0
    have hlenRS : (rolledSizes s).length = s.shardsNum.toNat := by
      unfold rolledSizes
      split_ifs
      · exact hlen2
      · rw [roll_length]; exact hlen2
    have hposRS : ∀ x ∈ rolledSizes s, 0 ≤ x := by
      intro x hx
      unfold rolledSizes at hx
      split_ifs at hx
      · exact hpos x hx
      · exact hpos x (mem_roll.mp hx)
    have hmaxRS : listMax (rolledSizes s) = cdiv s.sizeNoPad s.shardsNum := by
      unfold rolledSizes
      split_ifs
      · exact hmaxS
      · rw [listMax_roll]; exact hmaxS
    have hlencpg : (rebasedCounters s).length = s.shardsNum.toNat := by
      rw [hreb, List.length_map, hlenR]
    have hlenD1 : (List.zipWith (fun x y => x - y) (rolledSizes s) (rebasedCounters s)).length
        = s.shardsNum.toNat := by
      rw [List.length_zipWith, hlenRS, hlencpg, min_self]
    -- lower bound on the recomputed read maximum
    obtain ⟨i, hilt, hival⟩ := List.mem_iff_getElem.mp (listMax_mem hRne)
    have hilt2 : i < s.shardsNum.toNat := by rw [← hlenR]; exact hilt
    have hiltRS : i < (rolledSizes s).length := by rw [hlenRS]; exact hilt2
    have hiltCP : i < (rebasedCounters s).length := by rw [hlencpg]; exact hilt2
    have hiltD1 : i < (List.zipWith (fun x y => x - y) (rolledSizes s)
        (rebasedCounters s)).length := by rw [hlenD1]; exact hilt2
    have hcpgi : (rebasedCounters s)[i] = s.size - listMax (readArray s) := by
      rw [List.getElem_of_eq hreb hiltCP, List.getElem_map, hival]
    have hD1i : (List.zipWith (fun x y => x - y) (rolledSizes s) (rebasedCounters s))[i]
        = (rolledSizes s)[i] + listMax (readArray s) - s.size := by
      rw [List.getElem_zipWith, hcpgi]
      ring
    have hM'lb : 1 - s.batchSize
        ≤ listMax (List.zipWith (fun x y => x - y) (rolledSizes s) (rebasedCounters s)) := by
      have h5 : 0 ≤ (rolledSizes s)[i] := hposRS _ (List.getElem_mem _)
      have h6 : 1 - s.batchSize
          ≤ (List.zipWith (fun x y => x - y) (rolledSizes s) (rebasedCounters s))[i] := by
        rw [hD1i]
        omega
      exact le_trans h6 (le_listMax (List.getElem_mem _))
    have hspec := reset_boundary_fill_nopad s hc hf hpf hr
    have hrc : recomputedSize s
        = cdiv (listMax (List.zipWith (fun x y => x - y) (rolledSizes s) (rebasedCounters s)))
            s.batchSize * s.batchSize := rfl
    refine ⟨by simpa using hb1, by simpa using hn1, by simpa using hs1,
      by simp [hr], by simp [hf], ?_, ?_⟩
    · intro hq
      rw [reset_fst_lastBatchPadded, hpf] at hq
      cases hq
    · intro _
      by_cases hz : recomputedSize s = 0
      · -- degenerate: the epoch is skipped
        obtain ⟨hsz', hsh', hcp', hct'⟩ := hspec.2 hz
        have hlenroll : (roll (rolledSizes s)).length = s.shardsNum.toNat := by
          rw [roll_length, hlenRS]
        have hread' : readArray (reset s).1 = roll (rolledSizes s) := by
          unfold readArray
          rw [hsh', hcp']
          exact zipWith_sub_replicate_zero _ _ hlenroll
        have hmaxroll : listMax (roll (rolledSizes s)) = cdiv s.sizeNoPad s.shardsNum := by
          rw [listMax_roll, hmaxRS]
        have hntz : s.shardsNum.toNat ≠ 0 := by omega
        refine ⟨?_, ?_, ?_, ?_, ?_, ?_, ?_, ?_, ⟨0, ?_⟩, ?_⟩
        · rw [hcp', reset_fst_shardsNum, List.length_replicate]
        · rw [hsh', hlenroll, reset_fst_shardsNum]
        · intro x hx
          rw [hsh'] at hx
          exact hposRS x (mem_roll.mp hx)
        · rw [hsh', reset_fst_sizeNoPad, reset_fst_shardsNum, hmaxroll]
        · rw [hcp', listMin_replicate_zero _ hntz]
        · rw [hcp', listMin_replicate_zero _ hntz, reset_fst_batchSize]
          omega
        · rw [hread', hmaxroll]
          exact cdiv_pos hn0 hs1
        · rw [hread', hsz', reset_fst_batchSize]
        · rw [hct', hcp', listMin_replicate_zero _ hntz]
          simp
        · rw [hct', hsz', reset_fst_batchSize]
          have h7 : 0 ≤ cdiv (listMax (roll (rolledSizes s))) s.batchSize * s.batchSize := by
            rw [hmaxroll]
            exact mul_nonneg (cdiv_nonneg hb0 (cdiv_nonneg hn0 (by omega))) hb0.le
          omega
      · -- non-degenerate: the recomputed size is at least one batch
        obtain ⟨hsz', hsh', hcp', hct'⟩ := hspec.1 hz
        have hM'pos : 1 ≤ listMax (List.zipWith (fun x y => x - y) (rolledSizes s)
            (rebasedCounters s)) := by
          by_contra hcon
          push_neg at hcon
          have : cdiv (listMax (List.zipWith (fun x y => x - y) (rolledSizes s)
              (rebasedCounters s))) s.batchSize = 0 :=
            cdiv_eq_zero hb0 (by omega) (by omega)
          rw [hrc, this, zero_mul] at hz
          exact hz rfl
        have hread' : readArray (reset s).1
            = List.zipWith (fun x y => x - y) (rolledSizes s) (rebasedCounters s) := by
          unfold readArray
          rw [hsh', hcp']
        refine ⟨?_, ?_, ?_, ?_, ?_, ?_, ?_, ?_, ⟨0, ?_⟩, ?_⟩
        · rw [hcp', reset_fst_shardsNum, hlencpg]
        · rw [hsh', reset_fst_shardsNum, hlenRS]
        · intro x hx
          rw [hsh'] at hx
          exact hposRS x hx
        · rw [hsh', reset_fst_sizeNoPad, reset_fst_shardsNum, hmaxRS]
        · rw [hcp', hmin2]
          omega
        · rw [hcp', hmin2, reset_fst_batchSize]
          omega
        · rw [hread']
          exact hM'pos
        · rw [hread', hsz', hrc, reset_fst_batchSize]
        · rw [hct', hcp']
          simp
        · rw [hct', hsz', reset_fst_batchSize, hmin2, hrc]
          have h7 : 0 ≤ cdiv (listMax (List.zipWith (fun x y => x - y) (rolledSizes s)
              (rebasedCounters s))) s.batchSize * s.batchSize :=
            mul_nonneg (cdiv_nonneg hb0 (by omega)) hb0.le
          omega

lemma epochInv_init {pipes : List Pipe} {p0 : Pipe} {rest : List Pipe}
    (hp : pipes = p0 :: rest) {size : Int} {ar : Bool} {st : SchedState}
    (hb : 1 ≤ p0.batchSize) (hn : 1 ≤ p0.meta.numberOfShards) (hs : 1 ≤ p0.meta.epochSize)
    (hpad : ReaderPadConsistent p0.batchSize p0.meta)
    (h : initScheduler pipes size true ar true false = .ok st) : epochInv st := by
  subst hp
  have hn0 : (0 : Int) < p0.meta.numberOfShards := hn
  have hb0 : (0 : Int) < p0.batchSize := hb
  have hntz : p0.meta.numberOfShards.toNat ≠ 0 := by omega
  simp only [initScheduler] at h
  simp only [Bool.true_eq_false, and_false, if_false] at h
  split_ifs at h with h1 h2 h3 h4 h5
  all_goals try exact Except.noConfusion h
  simp only [extractFromReaderAndValidate, List.map_cons] at h
  rw [if_pos trivial] at h
  split_ifs at h with g1 g2 g3 g4 g5
  all_goals try exact Except.noConfusion h
  · -- derived pad_last_batch is true
    injection h with h6
    subst h6
    refine ⟨hb, hn, hs, rfl, rfl, ?_, ?_⟩
    · intro _
      exact ⟨(hpad g5).1, (hpad g5).2⟩
    · intro hq
      rw [g5] at hq
      cases hq
  · -- derived pad_last_batch is false
    have g5' : p0.meta.padLastBatch = false := by simpa using g5
    injection h with h6
    subst h6
    refine ⟨hb, hn, hs, rfl, rfl, ?_, ?_⟩
    · intro hq
      rw [g5'] at hq
      cases hq
    · intro _
      have hread : List.zipWith (fun x y => x - y)
            (calculateShardSizes p0.meta.epochSize p0.meta.numberOfShards)
            (List.replicate p0.meta.numberOfShards.toNat 0)
          = calculateShardSizes p0.meta.epochSize p0.meta.numberOfShards :=
        zipWith_sub_replicate_zero _ _ (calculateShardSizes_length _ _)
      refine ⟨?_, ?_, ?_, ?_, ?_, ?_, ?_, ?_, ⟨0, ?_⟩, ?_⟩
      · exact List.length_replicate _ _
      · exact calculateShardSizes_length _ _
      · exact fun x hx => calculateShardSizes_mem_nonneg hn0 (by omega) hx
      · exact listMax_calculateShardSizes hn0
      · rw [listMin_replicate_zero _ hntz]
      · rw [listMin_replicate_zero _ hntz]
        exact hb0
      · show 1 ≤ listMax (List.zipWith _ _ _)
        rw [hread, listMax_calculateShardSizes hn0]
        exact cdiv_pos hn0 hs
      · show cdiv (cdiv p0.meta.epochSize p0.meta.numberOfShards) p0.batchSize * p0.batchSize
          = cdiv (listMax (List.zipWith _ _ _)) p0.batchSize * p0.batchSize
        rw [hread, listMax_calculateShardSizes hn0]
      · rw [listMin_replicate_zero _ hntz]
        simp
      · have h7 : 0 ≤ cdiv (cdiv p0.meta.epochSize p0.meta.numberOfShards) p0.batchSize
            * p0.batchSize :=
          mul_nonneg (cdiv_nonneg hb0 (cdiv_nonneg hn0 (by omega))) hb0.le
        show (0 : Int) - p0.batchSize
          < cdiv (cdiv p0.meta.epochSize p0.meta.numberOfShards) p0.batchSize * p0.batchSize
        omega

lemma reachable_epochInv {pipes : List Pipe} {p0 : Pipe} {rest : List Pipe}
    (hp : pipes = p0 :: rest) {size : Int} {ar : Bool}
    (hb : 1 ≤ p0.batchSize) (hn : 1 ≤ p0.meta.numberOfShards) (hs : 1 ≤ p0.meta.epochSize)
    (hpad : ReaderPadConsistent p0.batchSize p0.meta) {st : SchedState}
    (hreach : Reachable pipes size true ar true false st) : epochInv st := by
  induction hreach with
  | init s hinit => exact epochInv_init hp hb hn hs hpad hinit
  | step s _ hstop ih => exact epochInv_step ih hstop
  | reset s _ ih => exact epochInv_reset ih

/-- The degenerate configuration refuting C7 as stated: one pipeline of
batch size 2 whose reader reports an empty dataset (epoch size 0, one
shard, no padding). -/
def exPipeZero : Pipe := ⟨2, ⟨0, 0, 1, 0, false, false⟩⟩

/-- The state constructed from `exPipeZero`: effective size 0 over the
single empty shard. -/
def exC7Init : SchedState :=
  { numGpus := 1, batchSize := 2, size := 0, autoReset := false, fillLastBatch := true,
    lastBatchPadded := false, counter := 0, readerName := true, sizeNoPad := 0,
    shardsNum := 1, isStickToShard := false, shardsId := [0], counterPerGpu := [0],
    shardSizesPerGpu := [0], shardSizesInitial := [0] }

/-- Counterexample to C7 as stated: from the valid reader-driven
construction over an empty dataset (`effective_size = 0`),
`should_stop` never fires (it needs `size > 0`), so the caller draws a
batch (counter 2) and may then call `reset()`, whose guard
`counter >= size` passes; the recomputed effective size is
`ceil(max([0] - [2]) / 2) * 2 = -2` — negative, so not a non-negative
multiple of the batch size, in a reachable state with
`fill_last_batch` true. -/
theorem reachable_negative_size :
    Reachable [exPipeZero] (-1) true false true false (reset (stepCounter exC7Init)).1
    ∧ (reset (stepCounter exC7Init)).1.size = -2
    ∧ ¬ (0 ≤ (reset (stepCounter exC7Init)).1.size) := by
  refine ⟨?_, by decide, by decide⟩
  exact Reachable.reset _ (Reachable.step _ (Reachable.init _ (by with_unfolding_all rfl))
    (by decide))

/-- C7 (amended): in reader-driven mode with `fill_last_batch` set,
over a nonempty dataset (reader `epoch_size ≥ 1` — the amendment the
counterexample forces) and a reader whose padded sizing is consistent
(`ReaderPadConsistent`, modelled from the spec since the reader lives
outside `src/`), every reachable state — the constructed state, closed
under counter steps gated by `_check_stop` and arbitrary `reset()`
calls — has an `effective_size` that is a non-negative exact multiple
of `batch_size`. -/
theorem reachable_size_multiple (pipes : List Pipe) (p0 : Pipe) (rest : List Pipe)
    (hp : pipes = p0 :: rest) (size : Int) (ar : Bool)
    (hb : 1 ≤ p0.batchSize) (hn : 1 ≤ p0.meta.numberOfShards)
    (hs : 1 ≤ p0.meta.epochSize) (hpad : ReaderPadConsistent p0.batchSize p0.meta)
    (st : SchedState) (hreach : Reachable pipes size true ar true false st) :
    0 ≤ st.size ∧ st.size % st.batchSize = 0 :=
  epochInv_size (reachable_epochInv hp hb hn hs hpad hreach)

/-- Witness for C7 (amended) at the freshly constructed `exInit`. -/
theorem reachable_size_multiple_witness :
    0 ≤ exInit.size ∧ exInit.size % exInit.batchSize = 0 :=
  reachable_size_multiple [exPipe] exPipe [] rfl (-1) false (by decide) (by decide)
    (by decide) (fun h => absurd h (by decide)) exInit
    (Reachable.init _ (by with_unfolding_all rfl))

end DaliIterator
